import Mathlib

/-!
Shallow embedding of the etcd `v3discovery` package (cluster discovery via a
v3 registry): the key-space schema, the membership ledger (`clusterInfo`),
the discovery engine's `checkCluster` / `waitPeers` control flow and the
retry/backoff policy, together with proofs of the specification's claims.
Definitions (the embedding itself, with the Go standard-library helpers the
source calls and the concrete fixtures used by witnesses) come first, then
the helper lemmas and one theorem per claim.

Conventions of the embedding:
* Go strings are Lean `String`s (sequences of runes / `Char`).
* Go `int64` / `int` revisions and sizes are Lean `Int`; the retry counter
  (`uint`) is a Lean `Nat` — every increment is guarded by
  `retries < nRetries` with `nRetries = 2^32 - 1`, so the value never comes
  near the 64-bit wrap and no modular reduction is observable.
* Registry I/O is represented by explicit response values: a `Get` response
  is `Option (List KV)` (`none` = transport error), a watch stream is the
  finite list of event batches it delivers before terminating.
* The recursion `checkCluster -> checkClusterRetry -> checkCluster` is
  bounded in the source by the guard `d.retries < nRetries`; the embedding
  makes that bound structural by passing `fuel = nRetries - retries`
  alongside the retry counter, so `retries < nRetries` is exactly `fuel ≠ 0`.
-/

namespace V3Discovery

/-- The package-level error values of `v3discovery` (`ErrInvalidURL`,
`ErrBadSizeKey`, `ErrSizeNotFound`, `ErrFullCluster`, `ErrTooManyRetries`),
plus `ioErr` standing for an arbitrary transport-level error returned by the
etcd client. -/
inductive DiscErr where
  | invalidURL
  | badSizeKey
  | sizeNotFound
  | fullCluster
  | tooManyRetries
  | ioErr
deriving DecidableEq

/-- `nRetries = uint(math.MaxUint32)`: number of retries discovery will
attempt before giving up. -/
def nRetries : Nat := 4294967295

/-- `maxExponentialRetries = uint(8)`. -/
def maxExponentialRetries : Nat := 8

/-- `memberInfo`: one member record observed in the registry. -/
structure memberInfo where
  peerRegKey : String
  peerURLsMap : String
  createRev : Int
deriving DecidableEq

/-- `clusterInfo`: the membership ledger for one cluster token. -/
structure clusterInfo where
  clusterToken : String
  members : List memberInfo
deriving DecidableEq

/-- `unicode.IsSpace`: the Unicode White_Space property (the exact set Go's
`strings.TrimSpace` strips). -/
def goIsSpace (c : Char) : Bool :=
  let n := c.toNat
  n = 0x9 ∨ n = 0xa ∨ n = 0xb ∨ n = 0xc ∨ n = 0xd ∨ n = 0x20 ∨
  n = 0x85 ∨ n = 0xa0 ∨ n = 0x1680 ∨ (0x2000 ≤ n ∧ n ≤ 0x200a) ∨
  n = 0x2028 ∨ n = 0x2029 ∨ n = 0x202f ∨ n = 0x205f ∨ n = 0x3000

/-- Rune-list core of `strings.TrimSpace`: drop leading, then trailing,
White_Space runes. -/
def trimList (l : List Char) : List Char :=
  ((l.dropWhile goIsSpace).reverse.dropWhile goIsSpace).reverse

/-- `strings.TrimSpace`: drop leading and trailing White_Space runes. -/
def goTrimSpace (s : String) : String :=
  String.mk (trimList s.toList)

/-- The inner `for out.w > dotdot && out.index(out.w) != '/' { out.w-- }`
loop of `path.Clean`'s `..` backtracking.  `out` is the written buffer in
reversed order, `dropped` the most recently truncated character. -/
def cleanBacktrackLoop (dotdot : Nat) : Char → List Char → List Char
  | _, [] => []
  | dropped, c :: rest =>
    if (c :: rest).length > dotdot ∧ dropped ≠ '/' then cleanBacktrackLoop dotdot c rest
    else c :: rest

/-- The `out.w--` followed by the backtracking loop (the `out.w > dotdot`
arm of the `..` case of `path.Clean`). -/
def cleanBacktrack (dotdot : Nat) : List Char → List Char
  | [] => []
  | c :: rest => cleanBacktrackLoop dotdot c rest

/-- The separator-insertion step at the start of `path.Clean`'s default
(element-copy) case: `if rooted && out.w != 1 || !rooted && out.w != 0 {
out.append('/') }`. -/
def cleanSep (rooted : Bool) (out : List Char) : List Char :=
  if (rooted ∧ out.length ≠ 1) ∨ (¬ rooted ∧ out.length ≠ 0) then '/' :: out else out

/-- The `..` arm of `path.Clean`: backtrack past the previous element when
there is one to delete, otherwise (when not rooted) emit a literal `..` and
advance `dotdot`.  Returns the updated `(dotdot, out)` pair. -/
def cleanDotDot (rooted : Bool) (dotdot : Nat) (out : List Char) : Nat × List Char :=
  if out.length > dotdot then (dotdot, cleanBacktrack dotdot out)
  else if ¬ rooted then
    let out' := '.' :: '.' :: (if out.length > 0 then '/' :: out else out)
    (out'.length, out')
  else (dotdot, out)

/-- Main loop of `path.Clean`, as a character-by-character state machine.
`out` is the output buffer in reversed order; the `Bool` flag is `true`
while inside the inner element-copy loop (`for ; r < n && path[r] != '/';
r++ { out.append(path[r]) }`) of the Go source, whose remaining iterations
are unrolled into the `true` state here.  A `.` or `..` element consumes
its characters directly; the `/` that may follow is consumed by the skip
state exactly as in the source.
The first `Nat` is fuel making the recursion structural; every step consumes
at least one input character while spending exactly one unit of fuel, so
the initial fuel `l.length` supplied by `pathClean` is never exhausted and
the fuel-out branch is unreachable. -/
def cleanLoop (rooted : Bool) : Nat → Nat → List Char → Bool → List Char → List Char
  | 0, _, out, _, _ => out
  | _ + 1, _, out, _, [] => out
  | fuel + 1, dotdot, out, true, c :: cs =>
    if c = '/' then cleanLoop rooted fuel dotdot out false cs
    else cleanLoop rooted fuel dotdot (c :: out) true cs
  | fuel + 1, dotdot, out, false, c :: cs =>
    if c = '/' then cleanLoop rooted fuel dotdot out false cs
    else
      match cs with
      | [] =>
        if c = '.' then out
        else c :: cleanSep rooted out
      | c2 :: cs2 =>
        if c = '.' then
          if c2 = '/' then cleanLoop rooted fuel dotdot out false cs2
          else if c2 = '.' then
            match cs2 with
            | [] => (cleanDotDot rooted dotdot out).2
            | c3 :: cs3 =>
              if c3 = '/' then
                let p := cleanDotDot rooted dotdot out
                cleanLoop rooted fuel p.1 p.2 false cs3
              else
                cleanLoop rooted fuel dotdot (c3 :: '.' :: '.' :: cleanSep rooted out) true cs3
          else cleanLoop rooted fuel dotdot (c2 :: '.' :: cleanSep rooted out) true cs2
        else cleanLoop rooted fuel dotdot (c :: cleanSep rooted out) true cs

/-- `path.Clean`, transcribed from the Go standard library. -/
def pathClean (p : String) : String :=
  if p = "" then "."
  else
    let l := p.toList
    let rooted := l.head? = some '/'
    let out :=
      if rooted then cleanLoop true l.tail.length 1 ['/'] false l.tail
      else cleanLoop false l.length 0 [] false l
    if out.length = 0 then "." else String.mk out.reverse

/-- `path.Join(a, b)` (two-argument form, the only one the source uses):
join the non-empty arguments with `/` and `Clean` the result; all-empty
arguments give `""`. -/
def pathJoin2 (a b : String) : String :=
  if a = "" ∧ b = "" then ""
  else if a = "" then pathClean b
  else pathClean (a ++ "/" ++ b)

/-- `discoveryPrefix = "/_etcd/registry"`. -/
def discoveryPrefix : String := "/_etcd/registry"

/-- `geClusterKeyPrefix`: key space for one cluster,
`"/_etcd/registry/<ClusterToken>"`. -/
def geClusterKeyPrefix (cluster : String) : String :=
  pathJoin2 discoveryPrefix cluster

/-- `geClusterSizeKey`: `"/_etcd/registry/<ClusterToken>/_config/size"`. -/
def geClusterSizeKey (cluster : String) : String :=
  pathJoin2 (geClusterKeyPrefix cluster) "_config/size"

/-- `getMemberKeyPrefix`: `"/_etcd/registry/<ClusterToken>/members"`. -/
def getMemberKeyPrefix (clusterToken : String) : String :=
  pathJoin2 (geClusterKeyPrefix clusterToken) "members"

/-- `getMemberKey`: `"/_etcd/registry/<ClusterToken>/members/<memberId>"`. -/
def getMemberKey (cluster memberId : String) : String :=
  pathJoin2 (getMemberKeyPrefix cluster) memberId

/-- `strconv.ParseInt(s, 10, 0)` digit scan: the numeric value of a
non-empty all-digit string, `none` on an empty digit string or any
non-digit character. -/
def digitsVal : List Char → Option Nat → Option Nat
  | [], acc => acc
  | c :: cs, acc =>
    if '0' ≤ c ∧ c ≤ '9' then
      digitsVal cs (some ((acc.getD 0) * 10 + (c.toNat - '0'.toNat)))
    else none

/-- `strconv.ParseInt(s, 10, 0)` (64-bit `int` platform): optional sign,
decimal digits, result within `[-2^63, 2^63 - 1]`; `none` on any parse or
range error. -/
def goParseInt (s : String) : Option Int :=
  match s.toList with
  | [] => none
  | c :: rest =>
    let p : Bool × List Char :=
      if c = '-' then (true, rest)
      else if c = '+' then (false, rest)
      else (false, c :: rest)
    match digitsVal p.2 none with
    | none => none
    | some n =>
      if p.1 then (if n > 2 ^ 63 then none else some (-(n : Int)))
      else (if n ≥ 2 ^ 63 then none else some (n : Int))

/-- `strings.HasPrefix`, computed on the rune sequences (UTF-8 is
self-synchronizing, so the byte-wise test of the Go source and this
rune-wise test agree). -/
def goHasPrefix (s p : String) : Bool :=
  p.toList.isPrefixOf s.toList

/-- `strings.IndexRune(s, c) != -1`: does `s` contain the rune `c`? -/
def goContainsRune (s : String) (c : Char) : Bool :=
  s.toList.contains c

/-- `strings.Split` on a single-rune separator, on rune lists. -/
def splitChar (sep : Char) : List Char → List (List Char)
  | [] => [[]]
  | c :: cs =>
    match splitChar sep cs with
    | [] => [[c]]
    | h :: t => if c = sep then [] :: h :: t else (c :: h) :: t

/-- `clusterInfo.Len`. -/
def clusterInfo.Len (cls : clusterInfo) : Nat := cls.members.length

/-- `clusterInfo.exist`: linear scan for a record with the given key. -/
def clusterInfo.exist (cls : clusterInfo) (mKey : String) : Bool :=
  cls.members.any (fun m => mKey = m.peerRegKey)

/-- Insert a record into a revision-sorted list, after every record whose
`createRev` is `≤` the new one: the position where the insertion sort run
by `sort.Sort(cls)` (with `Less i j ↔ createRev i < createRev j`) leaves an
element, moving it left only while it is strictly smaller. -/
def insertRev (x : memberInfo) : List memberInfo → List memberInfo
  | [] => [x]
  | y :: ys => if x.createRev < y.createRev then x :: y :: ys else y :: insertRev x ys

/-- `sort.Sort(cls)`: sort `members` ascending by `createRev`.  Modelled as
the left-to-right insertion sort Go's `sort.Sort` runs on the short,
already-sorted-but-for-the-appended-record slices that occur here, which
keeps records with equal `createRev` in their original (insertion)
order. -/
def sortMembers (l : List memberInfo) : List memberInfo :=
  l.foldl (fun acc x => insertRev x acc) []

/-- `clusterInfo.add`: validate and insert one observed member record,
re-sorting by `createRev`.  Returns the (possibly unchanged) ledger and
the error, `none` on success; the source mutates `cls.members` only on the
success path. -/
def clusterInfo.add (cls : clusterInfo) (memberKey memberValue : String) (rev : Int) :
    clusterInfo × Option String :=
  let membersKeyPrefix := getMemberKeyPrefix cls.clusterToken
  if ¬ (goHasPrefix memberKey membersKeyPrefix) then
    (cls, some "invalid peer registry key")
  else if ¬ (goContainsRune memberValue '=') then
    (cls, some "invalid peer info returned from discovery service")
  else if cls.exist memberKey then
    (cls, some "found duplicate peer from discovery service")
  else
    ({ cls with members := sortMembers (cls.members ++ [⟨memberKey, memberValue, rev⟩]) }, none)

/-- `clusterInfo.getPeerURLs`: the `peerURLsMap` values in ledger order. -/
def clusterInfo.getPeerURLs (cls : clusterInfo) : List String :=
  cls.members.map (fun m => m.peerURLsMap)

/-- Modelled from the spec: `types.NewURLsMap` lives outside this
repository; the spec only requires that the joined string "is parseable as
a name→URL mapping".  Modelled shallowly: the string is non-empty and
every comma-separated entry contains an `=` separator. -/
def urlsMapParsable (s : String) : Bool :=
  s ≠ "" ∧ (splitChar ',' s.toList).all (fun part => part.contains '=')

/-- The string `us` computed by `clusterInfo.getInitClusterStr`: the peer
URL entries, truncated to the first `clusterSize` when there are more,
joined with commas. -/
def initClusterUs (cls : clusterInfo) (clusterSize : Int) : String :=
  String.intercalate ","
    (if ((cls.getPeerURLs).length : Int) > clusterSize then
      cls.getPeerURLs.take clusterSize.toNat
    else cls.getPeerURLs)

/-- `clusterInfo.getInitClusterStr`: join the first `clusterSize` peer
URL entries with commas; the string is returned even when the
`types.NewURLsMap` validation fails (then alongside `ErrInvalidURL`). -/
def clusterInfo.getInitClusterStr (cls : clusterInfo) (clusterSize : Int) :
    String × Option DiscErr :=
  (initClusterUs cls clusterSize,
   if urlsMapParsable (initClusterUs cls clusterSize) then none
   else some DiscErr.invalidURL)

/-- One key-value entry of a registry `Get` response or watch event
(`kv.Key`, `kv.Value`, `kv.CreateRevision`). -/
structure KV where
  key : String
  value : String
  createRev : Int
deriving DecidableEq

/-- One registry `Get` interaction as observed by the engine: `none` is a
transport-level error, `some kvs` a successful response. -/
def GetResp := Option (List KV)

/-- The pair of registry reads one `checkCluster` attempt performs: the
size-key `Get` and the member-prefix `Get` (the latter with the response
header revision). -/
structure Attempt where
  sizeResp : Option (List KV)
  membersResp : Option (List KV × Int)

/-- `discovery.getClusterSize` after the `Get` returns: empty response ⇒
`ErrSizeNotFound`; `ParseInt` failure or value ≤ 0 ⇒ `ErrBadSizeKey`. -/
def getClusterSizePure (resp : Option (List KV)) : Except DiscErr Int :=
  match resp with
  | none => .error .ioErr
  | some [] => .error .sizeNotFound
  | some (kv :: _) =>
    match goParseInt kv.value with
    | none => .error .badSizeKey
    | some clusterSize => if clusterSize ≤ 0 then .error .badSizeKey else .ok clusterSize

/-- The body of the `for _, kv := range resp.Kvs` loop of
`discovery.getClusterMembers` (also the inner loop of `waitPeers`): trim
both key and value, feed them to `add`, and keep the ledger unchanged on a
rejection (the error is only logged). -/
def addKVs (cls : clusterInfo) (kvs : List KV) : clusterInfo :=
  kvs.foldl
    (fun c kv => (c.add (goTrimSpace kv.key) (goTrimSpace kv.value) kv.createRev).1) cls

/-- `discovery.getClusterMembers` after the `Get` returns: build a fresh
ledger for the token from the trimmed entries, returning it with the
response header revision. -/
def getClusterMembersPure (token : String) (resp : Option (List KV × Int)) :
    Except DiscErr (clusterInfo × Int) :=
  match resp with
  | none => .error .ioErr
  | some (kvs, rev) => .ok (addKVs ⟨token, []⟩ kvs, rev)

/-- The result quadruple of `discovery.checkCluster`
(`*clusterInfo, int, int64, error`). -/
structure CCRes where
  cls : Option clusterInfo
  size : Int
  rev : Int
  err : Option DiscErr
deriving DecidableEq

/-- The self-position scan of `discovery.checkCluster`: walk the
revision-ordered members; stop silently at self's key, and signal a full
cluster upon examining a non-self record at running index
`idx ≥ clusterSize - 1`.  Returns `true` iff `ErrFullCluster` is hit. -/
def selfScan (selfKey : String) (clusterSize : Int) : List memberInfo → Int → Bool
  | [], _ => false
  | m :: ms, idx =>
    if m.peerRegKey = selfKey then false
    else if idx ≥ clusterSize - 1 then true
    else selfScan selfKey clusterSize ms (idx + 1)

/-- The tail of `discovery.checkCluster` once both reads succeeded: run the
self scan and return the ledger, size and revision, with `ErrFullCluster`
exactly when the scan fires. -/
def checkClusterPost (cls : clusterInfo) (clusterSize : Int) (rev : Int)
    (selfKey : String) : CCRes :=
  if selfScan selfKey clusterSize cls.members 0 then
    ⟨some cls, clusterSize, rev, some .fullCluster⟩
  else
    ⟨some cls, clusterSize, rev, none⟩

/-- `discovery.logAndBackoffForRetry`: increment the retry counter, cap the
exponent at `maxExponentialRetries`, sleep `2^exponent` seconds.  Returns
the new counter and the slept duration in seconds. -/
def logAndBackoffForRetry (dRetries : Nat) : Nat × Nat :=
  let newRetries := dRetries + 1
  let retries := if newRetries > maxExponentialRetries then maxExponentialRetries else newRetries
  (newRetries, 2 ^ retries)

/-- Outcome classification of one `checkCluster` attempt's two reads. -/
inductive StepRes where
  | fatal (e : DiscErr)
  | done (r : CCRes)
  | transient
deriving DecidableEq

/-- One `checkCluster` attempt: the size read with its fatal-error test
(`err == ErrSizeNotFound || err == ErrBadSizeKey` returns immediately),
then the member read; any other failure of either read is transient
(handed to `checkClusterRetry`); on success `d.retries` is reset and the
self scan runs. -/
def checkAttempt (env : Nat → Attempt) (token selfId : String) (attempt : Nat) :
    StepRes :=
  match getClusterSizePure (env attempt).sizeResp with
  | .error e =>
    if e = .sizeNotFound ∨ e = .badSizeKey then .fatal e else .transient
  | .ok clusterSize =>
    match getClusterMembersPure token (env attempt).membersResp with
    | .error _ => .transient
    | .ok (cls, rev) =>
      .done (checkClusterPost cls clusterSize rev (getMemberKey token selfId))

/-- An attempt whose failure is transient (retried): the size read failed
at the transport level, or it succeeded and the member read failed. -/
def transientAttempt (a : Attempt) : Prop :=
  getClusterSizePure a.sizeResp = .error .ioErr ∨
  (∃ cs, getClusterSizePure a.sizeResp = .ok cs ∧ a.membersResp = none)

/-- `discovery.checkCluster` / `checkClusterRetry` mutual recursion.
`attempt` numbers the registry interactions (the environment `env` gives
each attempt's responses), `retries` is `d.retries`, and
`fuel = nRetries - retries` makes the `d.retries < nRetries` guard
structural (`fuel = 0` is exactly the exhausted guard, where
`checkClusterRetry` returns `ErrTooManyRetries`).  Returns the
`checkCluster` result together with the list of backoff sleeps (in
seconds) performed, in order. -/
def checkClusterAux (env : Nat → Attempt) (token selfId : String) :
    Nat → Nat → Nat → CCRes × List Nat
  | attempt, _, 0 =>
    match checkAttempt env token selfId attempt with
    | .fatal e => (⟨none, 0, 0, some e⟩, [])
    | .done r => (r, [])
    | .transient => (⟨none, 0, 0, some .tooManyRetries⟩, [])
  | attempt, retries, fuel + 1 =>
    match checkAttempt env token selfId attempt with
    | .fatal e => (⟨none, 0, 0, some e⟩, [])
    | .done r => (r, [])
    | .transient =>
      let b := logAndBackoffForRetry retries
      let r := checkClusterAux env token selfId (attempt + 1) b.1 fuel
      (r.1, b.2 :: r.2)

/-- `discovery.checkCluster` from a state with retry counter `retries`:
the retry budget left is `nRetries - retries`.  (On the success path the
source also resets `d.retries` to `0`; the callers below account for that
by entering later phases with a zero counter.) -/
def checkCluster (env : Nat → Attempt) (token selfId : String) (retries : Nat) :
    CCRes × List Nat :=
  checkClusterAux env token selfId 0 retries (nRetries - retries)

/-- `discovery.waitPeers`: consume the watch stream (a finite list of event
batches; its end is the stream terminating/closing), feeding every trimmed
event through `add` and stopping as soon as the ledger has reached
`clusterSize`.  The source returns no error and performs no retry: stream
termination simply ends the `for wresp := range w` loop and the function
returns the ledger accumulated so far. -/
def waitPeers (cls : clusterInfo) (clusterSize : Int) :
    List (List KV) → clusterInfo
  | [] => cls
  | batch :: rest =>
    let cls' := addKVs cls batch
    if (cls'.Len : Int) ≥ clusterSize then cls'
    else waitPeers cls' clusterSize rest

/-- The `for cls.Len() < clusterSize { d.waitPeers(cls, clusterSize, rev) }`
loop shared by `getCluster` and `joinCluster`.  `streams i` is the stream
delivered by the `i`-th watch the loop opens (each iteration opens a fresh
watch at the same `rev+1`).  `fuel` bounds the modelled iterations; `none`
means the loop was still running after `fuel` re-watches (the source would
keep looping). -/
def waitLoop (streams : Nat → List (List KV)) (clusterSize : Int) :
    clusterInfo → Nat → Nat → Option clusterInfo
  | cls, _, 0 =>
    if (cls.Len : Int) < clusterSize then none else some cls
  | cls, i, fuel + 1 =>
    if (cls.Len : Int) < clusterSize then
      waitLoop streams clusterSize (waitPeers cls clusterSize (streams i)) (i + 1) fuel
    else some cls

/-- `discovery.getCluster`: run `checkCluster`; on `ErrFullCluster` render
immediately, on any other error return `("", err)`, otherwise run the wait
loop and render.  `none` models the wait loop still running after its
fuel. -/
def getCluster (env : Nat → Attempt) (streams : Nat → List (List KV))
    (token selfId : String) (waitFuel : Nat) : Option (String × Option DiscErr) :=
  let r := (checkCluster env token selfId 0).1
  match r.cls, r.err with
  | some cls, some .fullCluster => some (cls.getInitClusterStr r.size)
  | _, some e => some ("", some e)
  | some cls, none =>
    match waitLoop streams r.size cls 0 waitFuel with
    | none => none
    | some cls' => some (cls'.getInitClusterStr r.size)
  | none, none => some ("", none)

/-- `discovery.registerSelf` / `registerSelfRetry`: `putResults i` tells
whether the `i`-th `Put` of the member key succeeds.  Returns the error
(`none` on success) and the backoff sleeps performed.  As in
`checkClusterAux`, `fuel = nRetries - retries` makes the
`d.retries < nRetries` guard structural. -/
def registerSelfAux (putResults : Nat → Bool) : Nat → Nat → Nat → Option DiscErr × List Nat
  | attempt, retries, fuel =>
    if putResults attempt then (none, [])
    else
      match fuel with
      | 0 => (some .tooManyRetries, [])
      | fuel + 1 =>
        let b := logAndBackoffForRetry retries
        let r := registerSelfAux putResults (attempt + 1) b.1 fuel
        (r.1, b.2 :: r.2)

/-- `discovery.joinCluster`: `checkCluster` (any error, `ErrFullCluster`
included, aborts), `registerSelf`, a second `checkCluster` (fresh snapshot
that now includes self; the successes in between reset `d.retries`, so the
later phases start from a zero counter), then the shared wait/render
loop.  `env1`/`env2` are the registry responses seen by the two
`checkCluster` phases, `putResults` those of `registerSelf`. -/
def joinCluster (env1 env2 : Nat → Attempt) (putResults : Nat → Bool)
    (streams : Nat → List (List KV)) (token selfId : String) (waitFuel : Nat) :
    Option (String × Option DiscErr) :=
  let r1 := (checkCluster env1 token selfId 0).1
  match r1.err with
  | some e => some ("", some e)
  | none =>
    match (registerSelfAux putResults 0 0 nRetries).1 with
    | some e => some ("", some e)
    | none =>
      let r := (checkCluster env2 token selfId 0).1
      match r.cls, r.err with
      | _, some e => some ("", some e)
      | some cls, none =>
        match waitLoop streams r.size cls 0 waitFuel with
        | none => none
        | some cls' => some (cls'.getInitClusterStr r.size)
      | none, none => some ("", none)

/-- The three rejection conditions of `add`, in the source's order of
checks. -/
def addRejected (cls : clusterInfo) (memberKey memberValue : String) : Prop :=
  ¬ (goHasPrefix memberKey (getMemberKeyPrefix cls.clusterToken)) ∨
  ¬ (goContainsRune memberValue '=') ∨
  cls.exist memberKey = true

instance (cls : clusterInfo) (k v : String) : Decidable (addRejected cls k v) := by
  unfold addRejected
  infer_instance

/-- The ledger invariant: pairwise-distinct registry keys, every record
schema-valid for the ledger's own token, and the sequence sorted ascending
by `createRev`. -/
def LedgerInv (cls : clusterInfo) : Prop :=
  cls.members.Pairwise (fun a b => a.peerRegKey ≠ b.peerRegKey) ∧
  (∀ m ∈ cls.members,
    goHasPrefix m.peerRegKey (getMemberKeyPrefix cls.clusterToken) = true ∧
    goContainsRune m.peerURLsMap '=' = true) ∧
  cls.members.Sorted (fun a b => a.createRev ≤ b.createRev)

/-- A sequence of raw `add` calls (the ledger is the accumulating state;
rejected calls leave it unchanged, exactly as in the source where `add`'s
error is only logged by the callers). -/
def addAll (cls : clusterInfo) : List KV → clusterInfo
  | [] => cls
  | kv :: rest => addAll ((cls.add kv.key kv.value kv.createRev).1) rest

/-- The member record a raw registry entry turns into on acceptance. -/
def toMember (kv : KV) : memberInfo := ⟨kv.key, kv.value, kv.createRev⟩

/-- Validity of a batch of records relative to a ledger: schema-valid for
the ledger's token, keys pairwise distinct, and no key already present. -/
def validBatch (cls : clusterInfo) (kvs : List KV) : Prop :=
  (∀ kv ∈ kvs,
    goHasPrefix kv.key (getMemberKeyPrefix cls.clusterToken) = true ∧
    goContainsRune kv.value '=' = true ∧ cls.exist kv.key = false) ∧
  (kvs.map KV.key).Nodup

instance (cls : clusterInfo) (kvs : List KV) : Decidable (validBatch cls kvs) := by
  unfold validBatch
  infer_instance

/-- Reflexive closure of the strict revision order, the relation under
which a revision-sorted duplicate-free member list is unique. -/
def revLtEq (a b : memberInfo) : Prop := a.createRev < b.createRev ∨ a = b

instance : IsAntisymm memberInfo revLtEq := by
  refine ⟨?_⟩
  intro a b hab hba
  rcases hab with h | h
  · rcases hba with h' | h'
    · exact absurd h' (lt_asymm h)
    · exact h'.symm
  · exact h

def wTok : String := "t"

def wKeyA : String := "/_etcd/registry/t/members/a"

def wKeyB : String := "/_etcd/registry/t/members/b"

def wKeyC : String := "/_etcd/registry/t/members/c"

def wA : memberInfo := ⟨wKeyA, "a=http://127.0.0.1:2380", 1⟩

def wB : memberInfo := ⟨wKeyB, "b=http://127.0.0.1:2381", 2⟩

def wC : memberInfo := ⟨wKeyC, "c=http://127.0.0.1:2382", 3⟩

def wCls : clusterInfo := ⟨wTok, [wA, wB]⟩

def wCls3 : clusterInfo := ⟨wTok, [wA, wB, wC]⟩

def wR1 : List KV := [⟨wKeyA, "a=http://127.0.0.1:2380", 1⟩, ⟨wKeyB, "b=http://127.0.0.1:2381", 2⟩]

def wR2 : List KV := [⟨wKeyB, "b=http://127.0.0.1:2381", 2⟩, ⟨wKeyA, "a=http://127.0.0.1:2380", 1⟩]

def cexR1 : List KV := [⟨wKeyA, "a=http://127.0.0.1:2380", 5⟩, ⟨wKeyB, "b=http://127.0.0.1:2381", 5⟩]

def cexR2 : List KV := [⟨wKeyB, "b=http://127.0.0.1:2381", 5⟩, ⟨wKeyA, "a=http://127.0.0.1:2380", 5⟩]

def wSelfKey : String := "/_etcd/registry/t/members/zzz"

def cexSelf : memberInfo := ⟨"/_etcd/registry/t/members/zelf", "z=http://127.0.0.1:2383", 3⟩

def cexCls : clusterInfo := ⟨wTok, [wA, wB, cexSelf]⟩

def cexEnvTransient : Nat → Attempt := fun _ => ⟨none, none⟩

def wSizeKV : KV := ⟨geClusterSizeKey wTok, "1", 1⟩

def wEnvOk : Nat → Attempt := fun _ => ⟨some [wSizeKV], some ([], 1)⟩

def wStreams : Nat → List (List KV) :=
  fun i => if i = 0 then [] else [[⟨wKeyA, "a=http://127.0.0.1:2380", 3⟩]]

/-- Ledger whose stored records carry no surrounding whitespace. -/
def trimmedCls (cls : clusterInfo) : Prop :=
  ∀ m ∈ cls.members,
    goTrimSpace m.peerRegKey = m.peerRegKey ∧
    goTrimSpace m.peerURLsMap = m.peerURLsMap

/-! ## Theorems

Helper lemmas first, then one theorem per claim (with its witness and,
for corrected claims, its counterexample). -/

theorem logAndBackoff_snd (r : Nat) :
    (logAndBackoffForRetry r).2 = 2 ^ min (r + 1) 8 := by
  unfold logAndBackoffForRetry maxExponentialRetries
  by_cases h : r + 1 > 8
  · simp only [h, if_true]
    congr 1
    omega
  · simp only [h, if_false]
    congr 1
    omega

theorem insertRev_perm (x : memberInfo) :
    ∀ l : List memberInfo, (insertRev x l).Perm (x :: l)
  | [] => List.Perm.refl _
  | y :: ys => by
    rw [insertRev]
    by_cases h : x.createRev < y.createRev
    · simp [h]
    · simp only [h, if_false]
      exact ((insertRev_perm x ys).cons y).trans (List.Perm.swap x y ys)

theorem sortMembers_perm_aux :
    ∀ (l acc : List memberInfo),
      (l.foldl (fun a x => insertRev x a) acc).Perm (acc ++ l)
  | [], acc => by simp
  | x :: xs, acc => by
    rw [List.foldl_cons]
    have h1 := sortMembers_perm_aux xs (insertRev x acc)
    have h2 := (insertRev_perm x acc).append_right xs
    exact h1.trans (h2.trans List.perm_middle.symm)

theorem sortMembers_perm (l : List memberInfo) : (sortMembers l).Perm l := by
  have h := sortMembers_perm_aux l []
  simpa [sortMembers] using h

theorem insertRev_sorted (x : memberInfo) :
    ∀ l : List memberInfo,
      l.Sorted (fun a b => a.createRev ≤ b.createRev) →
      (insertRev x l).Sorted (fun a b => a.createRev ≤ b.createRev)
  | [], _ => by simp [insertRev]
  | y :: ys, h => by
    rw [insertRev]
    rcases List.sorted_cons.mp h with ⟨hy, hys⟩
    by_cases hlt : x.createRev < y.createRev
    · simp only [hlt, if_true]
      refine List.sorted_cons.mpr ⟨?_, h⟩
      intro b hb
      rcases List.mem_cons.mp hb with rfl | hb
      · exact le_of_lt hlt
      · exact le_trans (le_of_lt hlt) (hy b hb)
    · simp only [hlt, if_false]
      refine List.sorted_cons.mpr ⟨?_, insertRev_sorted x ys hys⟩
      intro b hb
      have hb' := (insertRev_perm x ys).mem_iff.mp hb
      rcases List.mem_cons.mp hb' with rfl | hb'
      · exact le_of_not_lt hlt
      · exact hy b hb'

theorem sortMembers_sorted_aux :
    ∀ (l acc : List memberInfo),
      acc.Sorted (fun a b => a.createRev ≤ b.createRev) →
      (l.foldl (fun a x => insertRev x a) acc).Sorted
        (fun a b => a.createRev ≤ b.createRev)
  | [], _, h => h
  | x :: xs, acc, h => by
    rw [List.foldl_cons]
    exact sortMembers_sorted_aux xs (insertRev x acc) (insertRev_sorted x acc h)

theorem sortMembers_sorted (l : List memberInfo) :
    (sortMembers l).Sorted (fun a b => a.createRev ≤ b.createRev) :=
  sortMembers_sorted_aux l [] (by simp)

theorem exist_iff (cls : clusterInfo) (k : String) :
    cls.exist k = true ↔ ∃ m ∈ cls.members, k = m.peerRegKey := by
  simp [clusterInfo.exist]

theorem add_of_rejected (cls : clusterInfo) (k v : String) (rev : Int)
    (h : addRejected cls k v) :
    (cls.add k v rev).1 = cls ∧ (cls.add k v rev).2.isSome := by
  unfold clusterInfo.add
  by_cases h1 : goHasPrefix k (getMemberKeyPrefix cls.clusterToken)
  · by_cases h2 : goContainsRune v '='
    · have h3 : cls.exist k = true := by
        rcases h with h | h | h
        · exact absurd h1 h
        · exact absurd h2 h
        · exact h
      simp [h1, h2, h3]
    · simp [h1, h2]
  · simp [h1]

theorem not_rejected_iff (cls : clusterInfo) (k v : String) :
    ¬ addRejected cls k v ↔
      goHasPrefix k (getMemberKeyPrefix cls.clusterToken) = true ∧
      goContainsRune v '=' = true ∧ cls.exist k = false := by
  simp [addRejected, not_or]

theorem add_of_accepted (cls : clusterInfo) (k v : String) (rev : Int)
    (h : ¬ addRejected cls k v) :
    (cls.add k v rev).1 =
      { cls with members := sortMembers (cls.members ++ [⟨k, v, rev⟩]) } ∧
    (cls.add k v rev).2 = none := by
  obtain ⟨h1, h2, h3⟩ := (not_rejected_iff cls k v).mp h
  unfold clusterInfo.add
  simp [h1, h2, h3]

theorem add_duplicate_msg (cls : clusterInfo) (k v : String) (rev : Int)
    (h1 : goHasPrefix k (getMemberKeyPrefix cls.clusterToken) = true)
    (h2 : goContainsRune v '=' = true)
    (h3 : cls.exist k = true) :
    (cls.add k v rev).2 = some "found duplicate peer from discovery service" := by
  unfold clusterInfo.add
  simp [h1, h2, h3]

theorem add_members_perm (cls : clusterInfo) (k v : String) (rev : Int)
    (h : ¬ addRejected cls k v) :
    ((cls.add k v rev).1).members.Perm (cls.members ++ [⟨k, v, rev⟩]) := by
  rw [(add_of_accepted cls k v rev h).1]
  exact sortMembers_perm _

theorem add_token_eq (cls : clusterInfo) (k v : String) (rev : Int) :
    ((cls.add k v rev).1).clusterToken = cls.clusterToken := by
  unfold clusterInfo.add
  by_cases h1 : goHasPrefix k (getMemberKeyPrefix cls.clusterToken) <;>
    by_cases h2 : goContainsRune v '=' <;>
    by_cases h3 : cls.exist k <;>
    simp [h1, h2, h3]

theorem add_preserves_inv (cls : clusterInfo) (k v : String) (rev : Int)
    (h : LedgerInv cls) : LedgerInv ((cls.add k v rev).1) := by
  by_cases hrej : addRejected cls k v
  · rw [(add_of_rejected cls k v rev hrej).1]
    exact h
  · obtain ⟨hpair, hgood, hsort⟩ := h
    have hperm := add_members_perm cls k v rev hrej
    have htok := add_token_eq cls k v rev
    obtain ⟨h1, h2, h3⟩ := (not_rejected_iff cls k v).mp hrej
    refine ⟨?_, ?_, ?_⟩
    · have hsymm : ∀ {a b : memberInfo},
          a.peerRegKey ≠ b.peerRegKey → b.peerRegKey ≠ a.peerRegKey :=
        fun hab hba => hab hba.symm
      refine (hperm.pairwise_iff hsymm).mpr ?_
      rw [List.pairwise_append]
      refine ⟨hpair, by simp, ?_⟩
      intro a ha b hb
      rw [List.mem_singleton] at hb
      subst hb
      simp only [ne_eq]
      intro hk
      have : cls.exist k = true := (exist_iff cls k).mpr ⟨a, ha, hk.symm⟩
      rw [h3] at this
      exact Bool.false_ne_true this
    · intro m hm
      rw [htok]
      have hm' := hperm.mem_iff.mp hm
      rcases List.mem_append.mp hm' with hm' | hm'
      · exact hgood m hm'
      · rw [List.mem_singleton] at hm'
        subst hm'
        exact ⟨h1, h2⟩
    · rw [(add_of_accepted cls k v rev hrej).1]
      exact sortMembers_sorted _

theorem addAll_preserves_inv :
    ∀ (kvs : List KV) (cls : clusterInfo), LedgerInv cls → LedgerInv (addAll cls kvs)
  | [], _, h => h
  | kv :: rest, cls, h =>
    addAll_preserves_inv rest _ (add_preserves_inv cls kv.key kv.value kv.createRev h)

theorem addAll_inv_from_empty (token : String) (kvs : List KV) :
    LedgerInv (addAll ⟨token, []⟩ kvs) := by
  apply addAll_preserves_inv
  refine ⟨?_, ?_, ?_⟩ <;> simp

theorem exist_false_iff (cls : clusterInfo) (k : String) :
    cls.exist k = false ↔ ∀ m ∈ cls.members, k ≠ m.peerRegKey := by
  simp [clusterInfo.exist]

theorem addAll_members_perm :
    ∀ (kvs : List KV) (cls : clusterInfo), validBatch cls kvs →
      (addAll cls kvs).members.Perm (cls.members ++ kvs.map toMember) ∧
      (addAll cls kvs).clusterToken = cls.clusterToken
  | [], cls, _ => by simp [addAll]
  | kv :: rest, cls, hv => by
    obtain ⟨h, hnod⟩ := hv
    have hkv := h kv (List.mem_cons_self kv rest)
    have hrej : ¬ addRejected cls kv.key kv.value :=
      (not_rejected_iff cls kv.key kv.value).mpr hkv
    have hperm1 := add_members_perm cls kv.key kv.value kv.createRev hrej
    have htok1 := add_token_eq cls kv.key kv.value kv.createRev
    have hnod' : (rest.map KV.key).Nodup := (List.nodup_cons.mp hnod).2
    have hknotin : kv.key ∉ rest.map KV.key := (List.nodup_cons.mp hnod).1
    have hrest : validBatch ((cls.add kv.key kv.value kv.createRev).1) rest := by
      refine ⟨?_, hnod'⟩
      intro kv' hkv'
      have h' := h kv' (List.mem_cons_of_mem kv hkv')
      rw [htok1]
      refine ⟨h'.1, h'.2.1, ?_⟩
      rw [exist_false_iff]
      intro m hm
      have hm' := hperm1.mem_iff.mp hm
      rcases List.mem_append.mp hm' with hm' | hm'
      · exact (exist_false_iff cls kv'.key).mp h'.2.2 m hm'
      · rw [List.mem_singleton] at hm'
        subst hm'
        intro hkk
        exact hknotin (List.mem_map.mpr ⟨kv', hkv', hkk⟩)
    have ih := addAll_members_perm rest ((cls.add kv.key kv.value kv.createRev).1) hrest
    refine ⟨?_, ih.2.trans htok1⟩
    show (addAll ((cls.add kv.key kv.value kv.createRev).1) rest).members.Perm _
    have step1 := ih.1
    have step2 := hperm1.append_right (rest.map toMember)
    have step3 : (cls.members ++ [toMember kv]) ++ rest.map toMember =
        cls.members ++ (kv :: rest).map toMember := by
      rw [List.append_assoc]
      simp
    exact step1.trans (step2.trans (step3 ▸ List.Perm.refl _))

theorem sorted_nodup_revs_strict (l : List memberInfo)
    (hs : l.Sorted (fun a b => a.createRev ≤ b.createRev))
    (hn : (l.map memberInfo.createRev).Nodup) :
    l.Pairwise (fun a b => a.createRev < b.createRev) := by
  have hne : l.Pairwise (fun a b => a.createRev ≠ b.createRev) :=
    List.pairwise_map.mp hn
  exact (hs.and hne).imp (fun h => lt_of_le_of_ne h.1 h.2)

theorem eq_of_perm_strict_sorted (l₁ l₂ : List memberInfo)
    (p : l₁.Perm l₂)
    (s₁ : l₁.Pairwise (fun a b => a.createRev < b.createRev))
    (s₂ : l₂.Pairwise (fun a b => a.createRev < b.createRev)) : l₁ = l₂ := by
  have s₁' : l₁.Sorted revLtEq := s₁.imp (fun h => Or.inl h)
  have s₂' : l₂.Sorted revLtEq := s₂.imp (fun h => Or.inl h)
  exact List.eq_of_perm_of_sorted p s₁' s₂'

/-- C1: on a revision-sorted ledger holding `m` accepted records with
`m > n`, the rendered initial-cluster string is exactly the first `n`
(equivalently, `n` earliest-revision) entries' `peerURLsMap` values,
comma-joined and in ascending revision order; every record kept precedes
every record dropped in revision order, so records beyond the first `n`
never contribute to the output.  (Sortedness holds for every ledger the
code builds, by `C4_ledger_invariant`.) -/
theorem C1_initial_cluster_caps_to_earliest (cls : clusterInfo) (n : Nat)
    (hsorted : cls.members.Sorted (fun a b => a.createRev ≤ b.createRev))
    (hlen : n < cls.members.length) :
    (cls.getInitClusterStr (n : Int)).1 =
      String.intercalate "," ((cls.members.take n).map (fun m => m.peerURLsMap)) ∧
    (cls.members.take n).Sorted (fun a b => a.createRev ≤ b.createRev) ∧
    (∀ x ∈ cls.members.take n, ∀ y ∈ cls.members.drop n,
      x.createRev ≤ y.createRev) := by
  refine ⟨?_, ?_, ?_⟩
  · show initClusterUs cls (n : Int) = _
    unfold initClusterUs clusterInfo.getPeerURLs
    have hgt : ((cls.members.map (fun m => m.peerURLsMap)).length : Int) > (n : Int) := by
      rw [List.length_map]
      exact_mod_cast hlen
    rw [if_pos hgt]
    have htn : ((n : Int)).toNat = n := Int.toNat_natCast n
    rw [htn, ← List.map_take]
  · exact List.Pairwise.sublist (List.take_sublist n cls.members) hsorted
  · have hsplit := List.take_append_drop n cls.members
    have h := hsorted
    rw [← hsplit] at h
    exact (List.pairwise_append.mp h).2.2

theorem C1_initial_cluster_caps_to_earliest_witness :
    (wCls.members.Sorted (fun a b => a.createRev ≤ b.createRev) ∧
      1 < wCls.members.length) ∧
    ((wCls.getInitClusterStr ((1 : Nat) : Int)).1 =
        String.intercalate "," ((wCls.members.take 1).map (fun m => m.peerURLsMap)) ∧
      (wCls.members.take 1).Sorted (fun a b => a.createRev ≤ b.createRev) ∧
      (∀ x ∈ wCls.members.take 1, ∀ y ∈ wCls.members.drop 1,
        x.createRev ≤ y.createRev)) :=
  ⟨⟨by decide, by decide⟩,
   C1_initial_cluster_caps_to_earliest wCls 1 (by decide) (by decide)⟩

/-- C3: `add` returns an error and leaves the record sequence exactly
unchanged when the key is outside the ledger's member prefix, or the value
has no `=`, or the key is already present; otherwise it succeeds and the
sequence grows by exactly one record. -/
theorem C3_add_rejects_without_mutation (cls : clusterInfo) (k v : String) (rev : Int) :
    ((¬ goHasPrefix k (getMemberKeyPrefix cls.clusterToken) ∨
      ¬ goContainsRune v '=' ∨ cls.exist k = true) →
      ((cls.add k v rev).2).isSome = true ∧ (cls.add k v rev).1 = cls) ∧
    ((goHasPrefix k (getMemberKeyPrefix cls.clusterToken) ∧
      goContainsRune v '=' ∧ cls.exist k = false) →
      (cls.add k v rev).2 = none ∧
      ((cls.add k v rev).1).members.length = cls.members.length + 1) := by
  constructor
  · intro h
    have h' : addRejected cls k v := h
    obtain ⟨h1, h2⟩ := add_of_rejected cls k v rev h'
    exact ⟨h2, h1⟩
  · intro h
    have h' : ¬ addRejected cls k v := by
      rw [not_rejected_iff]
      exact ⟨h.1, h.2.1, h.2.2⟩
    refine ⟨(add_of_accepted cls k v rev h').2, ?_⟩
    have hperm := add_members_perm cls k v rev h'
    rw [hperm.length_eq]
    simp

theorem C3_add_rejects_without_mutation_witness :
    ((¬ goHasPrefix "outside" (getMemberKeyPrefix wCls.clusterToken) ∨
        ¬ goContainsRune "a=b" '=' ∨ wCls.exist "outside" = true) ∧
      (goHasPrefix wKeyC (getMemberKeyPrefix wCls.clusterToken) ∧
        goContainsRune "c=http://x" '=' ∧ wCls.exist wKeyC = false)) ∧
    (((wCls.add "outside" "a=b" 9).2).isSome = true ∧
      (wCls.add "outside" "a=b" 9).1 = wCls) ∧
    ((wCls.add wKeyC "c=http://x" 9).2 = none ∧
      ((wCls.add wKeyC "c=http://x" 9).1).members.length = wCls.members.length + 1) :=
  ⟨⟨by decide, by decide⟩,
   (C3_add_rejects_without_mutation wCls "outside" "a=b" 9).1 (by decide),
   (C3_add_rejects_without_mutation wCls wKeyC "c=http://x" 9).2 (by decide)⟩

/-- C4: every ledger reachable from empty by a sequence of `add` calls
satisfies the invariant: pairwise-distinct registry keys, every key under
the member prefix of the ledger's own token, every value containing `=`,
and the sequence sorted ascending by `createRevision`. -/
theorem C4_ledger_invariant (token : String) (kvs : List KV) :
    LedgerInv (addAll ⟨token, []⟩ kvs) :=
  addAll_inv_from_empty token kvs

/-- C2 (amended): when all `createRevision`s of a valid record set are
pairwise distinct, every insertion order yields the identical rendered
initial-cluster string.  (With equal revisions the re-sort keeps records
in insertion order, so the output then depends on the order — see the
counterexample.) -/
theorem C2_perm_insensitive_distinct_revs (token : String) (n : Int)
    (reqs₁ reqs₂ : List KV)
    (hperm : reqs₁.Perm reqs₂)
    (hvalid : validBatch ⟨token, []⟩ reqs₁)
    (hrev : (reqs₁.map KV.createRev).Nodup) :
    (addAll ⟨token, []⟩ reqs₁).getInitClusterStr n =
      (addAll ⟨token, []⟩ reqs₂).getInitClusterStr n := by
  have hvalid₂ : validBatch ⟨token, []⟩ reqs₂ := by
    refine ⟨?_, ?_⟩
    · intro kv hkv
      exact hvalid.1 kv (hperm.mem_iff.mpr hkv)
    · exact ((hperm.map KV.key).nodup_iff).mp hvalid.2
  have h₁ := addAll_members_perm reqs₁ ⟨token, []⟩ hvalid
  have h₂ := addAll_members_perm reqs₂ ⟨token, []⟩ hvalid₂
  have hmm : (addAll ⟨token, []⟩ reqs₁).members.Perm
      (addAll ⟨token, []⟩ reqs₂).members := by
    refine (h₁.1.trans ?_).trans h₂.1.symm
    simpa using hperm.map toMember
  have hinv₁ := addAll_inv_from_empty token reqs₁
  have hinv₂ := addAll_inv_from_empty token reqs₂
  have hrevs₁ : ((addAll ⟨token, []⟩ reqs₁).members.map memberInfo.createRev).Nodup := by
    have hp : ((addAll ⟨token, []⟩ reqs₁).members.map memberInfo.createRev).Perm
        (reqs₁.map KV.createRev) := by
      have := h₁.1.map memberInfo.createRev
      simpa [toMember, Function.comp] using this
    exact hp.nodup_iff.mpr hrev
  have hrevs₂ : ((addAll ⟨token, []⟩ reqs₂).members.map memberInfo.createRev).Nodup := by
    have := (hmm.map memberInfo.createRev).nodup_iff
    exact this.mp hrevs₁
  have hstrict₁ := sorted_nodup_revs_strict _ hinv₁.2.2 hrevs₁
  have hstrict₂ := sorted_nodup_revs_strict _ hinv₂.2.2 hrevs₂
  have hmeq := eq_of_perm_strict_sorted _ _ hmm hstrict₁ hstrict₂
  have hclseq : addAll ⟨token, []⟩ reqs₁ = addAll ⟨token, []⟩ reqs₂ := by
    have ht : (addAll (⟨token, []⟩ : clusterInfo) reqs₁).clusterToken =
        (addAll (⟨token, []⟩ : clusterInfo) reqs₂).clusterToken := by
      rw [h₁.2, h₂.2]
    calc addAll ⟨token, []⟩ reqs₁
        = ⟨(addAll (⟨token, []⟩ : clusterInfo) reqs₁).clusterToken,
           (addAll (⟨token, []⟩ : clusterInfo) reqs₁).members⟩ := rfl
      _ = ⟨(addAll (⟨token, []⟩ : clusterInfo) reqs₂).clusterToken,
           (addAll (⟨token, []⟩ : clusterInfo) reqs₂).members⟩ := by rw [ht, hmeq]
      _ = addAll ⟨token, []⟩ reqs₂ := rfl
  rw [hclseq]

theorem C2_perm_insensitive_distinct_revs_witness :
    (wR1.Perm wR2 ∧ validBatch ⟨wTok, []⟩ wR1 ∧ (wR1.map KV.createRev).Nodup) ∧
    (addAll ⟨wTok, []⟩ wR1).getInitClusterStr 2 =
      (addAll ⟨wTok, []⟩ wR2).getInitClusterStr 2 :=
  ⟨⟨by decide, by decide, by decide⟩,
   C2_perm_insensitive_distinct_revs wTok 2 wR1 wR2 (by decide) (by decide) (by decide)⟩

/-- C2 counterexample: two valid records with the same `createRevision 5`,
inserted in the two possible orders, render different initial-cluster
strings — the "identical for every permutation" part of the claim fails as
soon as two records share a revision, because the stable re-sort keeps
ties in insertion order. -/
theorem C2_counterexample :
    cexR1.Perm cexR2 ∧ validBatch ⟨wTok, []⟩ cexR1 ∧
    (addAll ⟨wTok, []⟩ cexR1).getInitClusterStr 2 ≠
      (addAll ⟨wTok, []⟩ cexR2).getInitClusterStr 2 := by
  refine ⟨by decide, by decide, by decide⟩

theorem selfScan_three (selfKey : String) (a b c : memberInfo) :
    selfScan selfKey 3 [a, b, c] 0 =
      (decide (a.peerRegKey ≠ selfKey) && decide (b.peerRegKey ≠ selfKey) &&
        decide (c.peerRegKey ≠ selfKey)) := by
  by_cases ha : a.peerRegKey = selfKey <;>
    by_cases hb : b.peerRegKey = selfKey <;>
    by_cases hc : c.peerRegKey = selfKey <;>
    simp [selfScan, ha, hb, hc]

theorem selfScan_false_of_self_in_window (selfKey : String) (clusterSize : Int) :
    ∀ (ms : List memberInfo) (idx : Int),
      (∃ m ∈ ms.take ((clusterSize - idx).toNat), m.peerRegKey = selfKey) →
      selfScan selfKey clusterSize ms idx = false
  | [], _, h => by simp at h
  | m :: tl, idx, h => by
    rw [selfScan]
    by_cases hm : m.peerRegKey = selfKey
    · simp [hm]
    · obtain ⟨x, hx, hxk⟩ := h
      have hn : 1 ≤ (clusterSize - idx).toNat := by
        by_contra hcon
        have h0 : (clusterSize - idx).toNat = 0 := by omega
        rw [h0] at hx
        simp at hx
      obtain ⟨k, hk⟩ := Nat.exists_eq_add_of_le hn
      rw [hk] at hx
      have hx' : x ∈ m :: tl.take k := by
        have : (1 + k) = k + 1 := Nat.add_comm 1 k
        rw [this] at hx
        simpa [List.take_succ_cons] using hx
      rcases List.mem_cons.mp hx' with rfl | hx''
      · exact absurd hxk hm
      · have hk1 : 1 ≤ k := by
          by_contra hcon
          have h0 : k = 0 := by omega
          rw [h0] at hx''
          simp at hx''
      -- self sits strictly past the head, so the window extends at least two
      -- slots: the `idx ≥ clusterSize - 1` full-cluster exit cannot fire here
        have hidx : ¬ (idx ≥ clusterSize - 1) := by omega
        simp only [hm, if_false, hidx]
        have hrec : x ∈ tl.take ((clusterSize - (idx + 1)).toNat) := by
          have heq : (clusterSize - (idx + 1)).toNat = k := by omega
          rw [heq]
          exact hx''
        exact selfScan_false_of_self_in_window selfKey clusterSize tl (idx + 1)
          ⟨x, hrec, hxk⟩

/-- C5: on a ledger of exactly three records with configured size 3, the
self scan of `checkCluster` signals `ErrFullCluster` precisely when none
of the three records carries this node's member key (the scan reaches
index `2 = clusterSize - 1` without meeting self); if any of the three —
the one at the last permitted position included — is self's key, the
ledger, size and revision are returned with no error. -/
theorem C5_full_cluster_detection (cls : clusterInfo) (rev : Int) (selfKey : String)
    (h3 : cls.members.length = 3) :
    ((∀ m ∈ cls.members, m.peerRegKey ≠ selfKey) →
      checkClusterPost cls 3 rev selfKey =
        ⟨some cls, 3, rev, some DiscErr.fullCluster⟩) ∧
    ((∃ m ∈ cls.members, m.peerRegKey = selfKey) →
      checkClusterPost cls 3 rev selfKey = ⟨some cls, 3, rev, none⟩) := by
  obtain ⟨a, b, c, hm⟩ := List.length_eq_three.mp h3
  unfold checkClusterPost
  rw [hm, selfScan_three]
  constructor
  · intro hall
    have ha := hall a (by simp)
    have hb := hall b (by simp)
    have hc := hall c (by simp)
    simp [ha, hb, hc]
  · intro hex
    obtain ⟨x, hx, hxk⟩ := hex
    simp only [List.mem_cons, List.not_mem_nil, or_false] at hx
    rcases hx with rfl | rfl | rfl
    · simp [hxk]
    · simp [hxk]
    · simp [hxk]

theorem C5_full_cluster_detection_witness :
    (wCls3.members.length = 3 ∧
      (∀ m ∈ wCls3.members, m.peerRegKey ≠ wSelfKey) ∧
      (∃ m ∈ wCls3.members, m.peerRegKey = wKeyC)) ∧
    checkClusterPost wCls3 3 4 wSelfKey =
      ⟨some wCls3, 3, 4, some DiscErr.fullCluster⟩ ∧
    checkClusterPost wCls3 3 4 wKeyC = ⟨some wCls3, 3, 4, none⟩ :=
  ⟨⟨by decide, by decide, by decide⟩,
   (C5_full_cluster_detection wCls3 4 wSelfKey (by decide)).1 (by decide),
   (C5_full_cluster_detection wCls3 4 wKeyC (by decide)).2 (by decide)⟩

/-- C6 (amended): if this node's member key appears among the **first
`clusterSize`** records of the ledger, `checkCluster` never returns
`ErrFullCluster`.  (The unrestricted claim is false: when self's record
sits beyond position `clusterSize - 1`, the scan exits with
`ErrFullCluster` before ever reaching it — see the counterexample.) -/
theorem C6_self_in_window_never_full (cls : clusterInfo) (clusterSize rev : Int)
    (selfKey : String)
    (h : ∃ m ∈ cls.members.take clusterSize.toNat, m.peerRegKey = selfKey) :
    checkClusterPost cls clusterSize rev selfKey =
      ⟨some cls, clusterSize, rev, none⟩ := by
  unfold checkClusterPost
  have hs := selfScan_false_of_self_in_window selfKey clusterSize cls.members 0
    (by simpa using h)
  simp [hs]

theorem C6_self_in_window_never_full_witness :
    (∃ m ∈ wCls3.members.take ((2 : Int)).toNat, m.peerRegKey = wKeyB) ∧
    checkClusterPost wCls3 2 9 wKeyB = ⟨some wCls3, 2, 9, none⟩ :=
  ⟨by decide, C6_self_in_window_never_full wCls3 2 9 wKeyB (by decide)⟩

/-- C6 counterexample: configured size 2, ledger `[wA, wB, self]` with
self's record at index 2 (revision order): self **is** present, yet the
scan meets `wB` at index `1 ≥ clusterSize - 1` before reaching self and
returns `ErrFullCluster` — refuting "never returns FullCluster regardless
of how many records the ledger holds". -/
theorem C6_counterexample :
    (∃ m ∈ cexCls.members, m.peerRegKey = "/_etcd/registry/t/members/zelf") ∧
    (checkClusterPost cexCls 2 7 "/_etcd/registry/t/members/zelf").err =
      some DiscErr.fullCluster := by
  exact ⟨by decide, by decide⟩

/-- C7 (amended): the counter is incremented **before** the sleep is
computed, so the k-th failure since the last success (k ≥ 1) sleeps
`2^min(k, 8)` seconds: `2^min(retries+1, 8)` for a pre-failure counter of
`retries`, constant at `256 = 2^8` from the eighth failure on — and the
failure immediately after a reset to zero sleeps `2 = 2^1` seconds, not
the 1-second base the claim states. -/
theorem C7_backoff_formula (retries : Nat) :
    (logAndBackoffForRetry retries).1 = retries + 1 ∧
    (logAndBackoffForRetry retries).2 = 2 ^ min (retries + 1) 8 ∧
    (8 ≤ retries + 1 → (logAndBackoffForRetry retries).2 = 256) ∧
    (logAndBackoffForRetry 0).2 = 2 := by
  refine ⟨rfl, logAndBackoff_snd retries, ?_, rfl⟩
  intro h
  rw [logAndBackoff_snd retries]
  have h8 : min (retries + 1) 8 = 8 := by omega
  rw [h8]
  decide

theorem C7_backoff_formula_witness :
    (8 ≤ 9 + 1) ∧
    ((logAndBackoffForRetry 9).1 = 9 + 1 ∧
      (logAndBackoffForRetry 9).2 = 2 ^ min (9 + 1) 8 ∧
      (8 ≤ 9 + 1 → (logAndBackoffForRetry 9).2 = 256) ∧
      (logAndBackoffForRetry 0).2 = 2) :=
  ⟨by decide, C7_backoff_formula 9⟩

/-- C7 counterexample: with the retry counter freshly reset to zero, the
next failure sleeps `(logAndBackoffForRetry 0).2 = 2` seconds — not the
1-second base duration the claim asserts. -/
theorem C7_counterexample :
    (logAndBackoffForRetry 0).2 = 2 ∧ (logAndBackoffForRetry 0).2 ≠ 1 := by
  exact ⟨rfl, by decide⟩

theorem checkAttempt_fatal (env : Nat → Attempt) (token selfId : String)
    (attempt : Nat) (e : DiscErr)
    (hsize : getClusterSizePure (env attempt).sizeResp = .error e)
    (hfatal : e = DiscErr.sizeNotFound ∨ e = DiscErr.badSizeKey) :
    checkAttempt env token selfId attempt = .fatal e := by
  unfold checkAttempt
  rw [hsize]
  simp [hfatal]

theorem checkAttempt_transient (env : Nat → Attempt) (token selfId : String)
    (attempt : Nat) (h : transientAttempt (env attempt)) :
    checkAttempt env token selfId attempt = .transient := by
  unfold checkAttempt
  rcases h with h | ⟨cs, h1, h2⟩
  · rw [h]
    simp
  · rw [h1, h2]
    rfl

/-- C8: the size read maps an empty response to `ErrSizeNotFound` and a
non-numeric or non-positive value to `ErrBadSizeKey`; `checkCluster`
returns those two immediately, with no retry and no backoff sleep; a
transport failure of either read instead backs off and recurses into the
next attempt, and when the retry budget (`nRetries - retries`) is down to
zero it returns `ErrTooManyRetries`; an environment that fails
transiently forever therefore ends in `ErrTooManyRetries` for every
budget. -/
theorem C8_fatal_vs_retried_errors (env : Nat → Attempt) (token selfId : String) :
    (getClusterSizePure (some []) = .error .sizeNotFound) ∧
    (∀ (kv : KV) (rest : List KV),
      (goParseInt kv.value = none ∨ ∃ n, goParseInt kv.value = some n ∧ n ≤ 0) →
      getClusterSizePure (some (kv :: rest)) = .error .badSizeKey) ∧
    (∀ (attempt retries fuel : Nat) (e : DiscErr),
      getClusterSizePure (env attempt).sizeResp = .error e →
      (e = DiscErr.sizeNotFound ∨ e = DiscErr.badSizeKey) →
      checkClusterAux env token selfId attempt retries fuel =
        (⟨none, 0, 0, some e⟩, [])) ∧
    (∀ attempt retries fuel, transientAttempt (env attempt) →
      checkClusterAux env token selfId attempt retries (fuel + 1) =
        ((checkClusterAux env token selfId (attempt + 1) (retries + 1) fuel).1,
          2 ^ min (retries + 1) 8 ::
            (checkClusterAux env token selfId (attempt + 1) (retries + 1) fuel).2) ∧
      checkClusterAux env token selfId attempt retries 0 =
        (⟨none, 0, 0, some DiscErr.tooManyRetries⟩, [])) ∧
    ((∀ a, transientAttempt (env a)) →
      ∀ fuel attempt retries,
        (checkClusterAux env token selfId attempt retries fuel).1 =
          ⟨none, 0, 0, some DiscErr.tooManyRetries⟩) := by
  refine ⟨rfl, ?_, ?_, ?_, ?_⟩
  · intro kv rest h
    have hred : getClusterSizePure (some (kv :: rest)) =
        match goParseInt kv.value with
        | none => Except.error DiscErr.badSizeKey
        | some clusterSize =>
          if clusterSize ≤ 0 then Except.error DiscErr.badSizeKey
          else Except.ok clusterSize := rfl
    rw [hred]
    rcases h with h | ⟨n, h1, h2⟩
    · rw [h]
    · rw [h1]
      simp [h2]
  · intro attempt retries fuel e hsize hfatal
    have hstep := checkAttempt_fatal env token selfId attempt e hsize hfatal
    cases fuel <;> simp only [checkClusterAux, hstep]
  · intro attempt retries fuel h
    have hstep := checkAttempt_transient env token selfId attempt h
    constructor
    · simp only [checkClusterAux, hstep]
      have hfst : (logAndBackoffForRetry retries).1 = retries + 1 := rfl
      rw [hfst, logAndBackoff_snd]
    · simp only [checkClusterAux, hstep]
  · intro hall fuel
    induction fuel with
    | zero =>
      intro attempt retries
      have hstep := checkAttempt_transient env token selfId attempt (hall attempt)
      simp only [checkClusterAux, hstep]
    | succ fuel ih =>
      intro attempt retries
      have hstep := checkAttempt_transient env token selfId attempt (hall attempt)
      simp only [checkClusterAux, hstep]
      exact ih (attempt + 1) (retries + 1)

/-- C9 counterexample: the first watch stream terminates immediately
(before the ledger reaches the target size 1), yet `getCluster` returns a
successful result with no error: the loop simply opened a second watch and
finished from it.  Stream termination does **not** surface as an error to
the entry point's caller. -/
theorem C9_counterexample :
    wStreams 0 = [] ∧
    getCluster wEnvOk wStreams wTok "id" 2 =
      some ("a=http://127.0.0.1:2380", none) := by
  exact ⟨rfl, by decide⟩

/-- C9 (amended): `waitPeers` performs no retry and signals no error on
stream termination — a stream that ends early just yields the ledger
accumulated so far — and the `for cls.Len() < clusterSize` loop in the
entry points then re-invokes `waitPeers` on a fresh watch; the loop exits
(and the entry point renders the result, without error) exactly when the
ledger has reached the target size. -/
theorem C9_waitPeers_no_error_no_retry (cls : clusterInfo) (clusterSize : Int)
    (streams : Nat → List (List KV)) (i fuel : Nat) :
    (waitPeers cls clusterSize [] = cls) ∧
    ((cls.Len : Int) < clusterSize →
      waitLoop streams clusterSize cls i (fuel + 1) =
        waitLoop streams clusterSize (waitPeers cls clusterSize (streams i))
          (i + 1) fuel) ∧
    ((cls.Len : Int) ≥ clusterSize →
      waitLoop streams clusterSize cls i fuel = some cls) := by
  refine ⟨rfl, ?_, ?_⟩
  · intro h
    simp only [waitLoop]
    rw [if_pos h]
  · intro h
    have h' : ¬ ((cls.Len : Int) < clusterSize) := not_lt.mpr h
    cases fuel <;> simp only [waitLoop] <;> rw [if_neg h']

theorem dropWhile_dropWhile (p : Char → Bool) :
    ∀ l : List Char, (l.dropWhile p).dropWhile p = l.dropWhile p
  | [] => rfl
  | c :: cs => by
    rw [List.dropWhile_cons]
    by_cases h : p c
    · simp only [h, if_true]
      exact dropWhile_dropWhile p cs
    · simp [List.dropWhile_cons, h]

theorem dropWhile_head_false (p : Char → Bool) :
    ∀ (l : List Char) (b : Char) (bs : List Char),
      l.dropWhile p = b :: bs → p b = false
  | [], b, bs => by intro h; simp at h
  | c :: cs, b, bs => by
    rw [List.dropWhile_cons]
    by_cases h : p c
    · simp only [h, if_true]
      exact dropWhile_head_false p cs b bs
    · simp only [h, if_false]
      intro he
      rw [← (List.cons.injEq c cs b bs).mp he |>.1]
      exact Bool.eq_false_iff.mpr h

theorem dropWhile_isSuffix (p : Char → Bool) :
    ∀ l : List Char, ∃ t, t ++ l.dropWhile p = l
  | [] => ⟨[], rfl⟩
  | c :: cs => by
    rw [List.dropWhile_cons]
    by_cases h : p c
    · simp only [h, if_true]
      obtain ⟨t, ht⟩ := dropWhile_isSuffix p cs
      exact ⟨c :: t, by rw [List.cons_append, ht]⟩
    · simp only [h, if_false]
      exact ⟨[], rfl⟩

/-- The trailing-trim result is a prefix of the leading-trim result, so
its head (when any) is the same non-space character; dropping leading
spaces from it is therefore the identity. -/
theorem trim_core_dropWhile_fix (l : List Char) :
    (((l.dropWhile goIsSpace).reverse.dropWhile goIsSpace).reverse).dropWhile goIsSpace =
      ((l.dropWhile goIsSpace).reverse.dropWhile goIsSpace).reverse := by
  rcases hB : ((l.dropWhile goIsSpace).reverse.dropWhile goIsSpace).reverse with _ | ⟨b, bs⟩
  · rfl
  · obtain ⟨t, ht⟩ := dropWhile_isSuffix goIsSpace (l.dropWhile goIsSpace).reverse
    have hBrev : ((l.dropWhile goIsSpace).reverse.dropWhile goIsSpace) = (b :: bs).reverse := by
      rw [← hB, List.reverse_reverse]
    rw [hBrev] at ht
    have hA : l.dropWhile goIsSpace = (b :: bs) ++ t.reverse := by
      have := congrArg List.reverse ht
      simpa using this.symm
    have hb : goIsSpace b = false :=
      dropWhile_head_false goIsSpace l b (bs ++ t.reverse) (by rw [hA]; rfl)
    simp [List.dropWhile_cons, hb]

theorem trimList_idem (l : List Char) : trimList (trimList l) = trimList l := by
  unfold trimList
  rw [trim_core_dropWhile_fix]
  rw [List.reverse_reverse]
  exact trim_core_dropWhile_fix l

theorem goTrimSpace_idem (s : String) : goTrimSpace (goTrimSpace s) = goTrimSpace s := by
  unfold goTrimSpace
  congr 1
  have htl : (String.mk (trimList s.toList)).toList = trimList s.toList := rfl
  rw [htl, trimList_idem]

theorem add_trimmed (cls : clusterInfo) (k v : String) (rev : Int)
    (h : trimmedCls cls) :
    trimmedCls ((cls.add (goTrimSpace k) (goTrimSpace v) rev).1) := by
  by_cases hrej : addRejected cls (goTrimSpace k) (goTrimSpace v)
  · rw [(add_of_rejected cls _ _ rev hrej).1]
    exact h
  · intro m hm
    have hperm := add_members_perm cls _ _ rev hrej
    have hm' := hperm.mem_iff.mp hm
    rcases List.mem_append.mp hm' with hm' | hm'
    · exact h m hm'
    · rw [List.mem_singleton] at hm'
      subst hm'
      exact ⟨goTrimSpace_idem k, goTrimSpace_idem v⟩

theorem addKVs_trimmed :
    ∀ (kvs : List KV) (cls : clusterInfo),
      trimmedCls cls → trimmedCls (addKVs cls kvs)
  | [], _, h => h
  | kv :: rest, cls, h => by
    have hstep := add_trimmed cls kv.key kv.value kv.createRev h
    have : addKVs cls (kv :: rest) =
        addKVs ((cls.add (goTrimSpace kv.key) (goTrimSpace kv.value) kv.createRev).1)
          rest := rfl
    rw [this]
    exact addKVs_trimmed rest _ hstep

theorem waitPeers_trimmed :
    ∀ (batches : List (List KV)) (cls : clusterInfo) (clusterSize : Int),
      trimmedCls cls → trimmedCls (waitPeers cls clusterSize batches)
  | [], _, _, h => h
  | batch :: rest, cls, clusterSize, h => by
    rw [waitPeers]
    have hstep := addKVs_trimmed batch cls h
    by_cases hlen : ((addKVs cls batch).Len : Int) ≥ clusterSize
    · simp only [hlen, if_true]
      exact hstep
    · simp only [hlen, if_false]
      exact waitPeers_trimmed rest _ clusterSize hstep

/-- C10: both registry read paths (`getClusterMembers` and the watch loop
of `waitPeers`) trim keys and values before `add`, so (a) every stored
record is whitespace-free, (b) the watch path preserves that, and (c) two
entries whose keys agree after trimming are the same key to the ledger:
once the first is stored, adding the second changes nothing, and (when its
value is otherwise well-formed) the reported error is precisely the
duplicate-peer error. -/
theorem C10_trimmed_keys_and_duplicates (token : String) :
    (∀ kvs : List KV, ∀ m ∈ (addKVs ⟨token, []⟩ kvs).members,
      goTrimSpace m.peerRegKey = m.peerRegKey ∧
      goTrimSpace m.peerURLsMap = m.peerURLsMap) ∧
    (∀ (batches : List (List KV)) (cls : clusterInfo) (clusterSize : Int),
      trimmedCls cls → trimmedCls (waitPeers cls clusterSize batches)) ∧
    (∀ (cls : clusterInfo) (k₁ k₂ v₁ v₂ : String) (r₁ r₂ : Int),
      goTrimSpace k₁ = goTrimSpace k₂ →
      (cls.add (goTrimSpace k₁) (goTrimSpace v₁) r₁).2 = none →
      ((((cls.add (goTrimSpace k₁) (goTrimSpace v₁) r₁).1).add
          (goTrimSpace k₂) (goTrimSpace v₂) r₂).1 =
        (cls.add (goTrimSpace k₁) (goTrimSpace v₁) r₁).1 ∧
      (goContainsRune (goTrimSpace v₂) '=' →
        (((cls.add (goTrimSpace k₁) (goTrimSpace v₁) r₁).1).add
            (goTrimSpace k₂) (goTrimSpace v₂) r₂).2 =
          some "found duplicate peer from discovery service"))) := by
  refine ⟨?_, waitPeers_trimmed, ?_⟩
  · intro kvs
    exact addKVs_trimmed kvs ⟨token, []⟩ (by intro m hm; simp at hm)
  · intro cls k₁ k₂ v₁ v₂ r₁ r₂ hkk hsucc
    have hrej : ¬ addRejected cls (goTrimSpace k₁) (goTrimSpace v₁) := by
      intro hcon
      have := (add_of_rejected cls _ _ r₁ hcon).2
      rw [hsucc] at this
      simp at this
    obtain ⟨hpre, _, _⟩ := (not_rejected_iff cls _ _).mp hrej
    have hperm := add_members_perm cls (goTrimSpace k₁) (goTrimSpace v₁) r₁ hrej
    have htok := add_token_eq cls (goTrimSpace k₁) (goTrimSpace v₁) r₁
    have hex : ((cls.add (goTrimSpace k₁) (goTrimSpace v₁) r₁).1).exist
        (goTrimSpace k₂) = true := by
      rw [exist_iff]
      refine ⟨⟨goTrimSpace k₁, goTrimSpace v₁, r₁⟩, ?_, by rw [← hkk]⟩
      exact hperm.mem_iff.mpr (by simp)
    have hrej₂ : addRejected ((cls.add (goTrimSpace k₁) (goTrimSpace v₁) r₁).1)
        (goTrimSpace k₂) (goTrimSpace v₂) :=
      Or.inr (Or.inr hex)
    refine ⟨(add_of_rejected _ _ _ r₂ hrej₂).1, ?_⟩
    intro hv₂
    have hpre₂ : goHasPrefix (goTrimSpace k₂)
        (getMemberKeyPrefix
          (((cls.add (goTrimSpace k₁) (goTrimSpace v₁) r₁).1).clusterToken)) = true := by
      rw [htok, ← hkk]
      exact hpre
    exact add_duplicate_msg _ _ _ r₂ hpre₂ hv₂ hex

theorem C10_trimmed_keys_and_duplicates_witness :
    ((goTrimSpace "  /_etcd/registry/t/members/a \t" = goTrimSpace wKeyA) ∧
      ((⟨wTok, []⟩ : clusterInfo).add (goTrimSpace wKeyA)
        (goTrimSpace " a=http://127.0.0.1:2380 ") 1).2 = none ∧
      goContainsRune (goTrimSpace "x=http://other") '=' = true) ∧
    ((((⟨wTok, []⟩ : clusterInfo).add (goTrimSpace wKeyA)
          (goTrimSpace " a=http://127.0.0.1:2380 ") 1).1).add
        (goTrimSpace "  /_etcd/registry/t/members/a \t")
        (goTrimSpace "x=http://other") 2).1 =
      (((⟨wTok, []⟩ : clusterInfo)).add (goTrimSpace wKeyA)
        (goTrimSpace " a=http://127.0.0.1:2380 ") 1).1 ∧
    ((((⟨wTok, []⟩ : clusterInfo).add (goTrimSpace wKeyA)
          (goTrimSpace " a=http://127.0.0.1:2380 ") 1).1).add
        (goTrimSpace "  /_etcd/registry/t/members/a \t")
        (goTrimSpace "x=http://other") 2).2 =
      some "found duplicate peer from discovery service" := by
  have h := (C10_trimmed_keys_and_duplicates wTok).2.2 ⟨wTok, []⟩ wKeyA
    "  /_etcd/registry/t/members/a \t" " a=http://127.0.0.1:2380 " "x=http://other"
    1 2 (by decide) (by decide)
  exact ⟨⟨by decide, by decide, by decide⟩, h.1, h.2 (by decide)⟩

theorem C9_waitPeers_no_error_no_retry_witness :
    ((((⟨wTok, []⟩ : clusterInfo).Len : Int) < 1 ∧
        ((wCls.Len : Int) ≥ 1)) ∧
      waitPeers (⟨wTok, []⟩ : clusterInfo) 1 [] = ⟨wTok, []⟩) ∧
    waitLoop wStreams 1 (⟨wTok, []⟩ : clusterInfo) 0 3 =
      waitLoop wStreams 1 (waitPeers (⟨wTok, []⟩ : clusterInfo) 1 (wStreams 0)) 1 2 ∧
    waitLoop wStreams 1 wCls 5 4 = some wCls :=
  ⟨⟨⟨by decide, by decide⟩,
    (C9_waitPeers_no_error_no_retry ⟨wTok, []⟩ 1 wStreams 0 2).1⟩,
   (C9_waitPeers_no_error_no_retry ⟨wTok, []⟩ 1 wStreams 0 2).2.1 (by decide),
   (C9_waitPeers_no_error_no_retry wCls 1 wStreams 5 4).2.2 (by decide)⟩

theorem C8_fatal_vs_retried_errors_witness :
    ((goParseInt "bogus" = none ∨ ∃ n, goParseInt "bogus" = some n ∧ n ≤ 0) ∧
      (∀ a, transientAttempt (cexEnvTransient a))) ∧
    getClusterSizePure (some [⟨"k", "bogus", 1⟩]) = .error .badSizeKey ∧
    (checkClusterAux cexEnvTransient "t" "id" 0 0 3).1 =
      ⟨none, 0, 0, some DiscErr.tooManyRetries⟩ :=
  ⟨⟨Or.inl rfl, fun _ => Or.inl rfl⟩,
   (C8_fatal_vs_retried_errors cexEnvTransient "t" "id").2.1 ⟨"k", "bogus", 1⟩ []
     (Or.inl rfl),
   (C8_fatal_vs_retried_errors cexEnvTransient "t" "id").2.2.2.2
     (fun _ => Or.inl rfl) 3 0 0⟩

end V3Discovery
